import Mathlib

/-!
Verification of the pair-counting and correlation-estimator core of
`halotools/mock_observables/observables.py`.

The source is Python 2 / numpy code.  The embedding below represents
numpy arrays as Lean lists: an `(N, k)` array of point positions becomes
a `List (List Real)` (one inner list per point), and a 1-d array of bin
edges or per-bin counts becomes a `List Real`.  The external pair
counter `npairs` (imported by the source from `npairs_mpi` / `kdpairs` /
`cpairs` / `pairs`, none of which are part of this repository core) is
taken as an explicit function parameter everywhere, as are the random
shuffle used for down-sampling and the spherical-geometry helpers of the
angular function.  Numpy float semantics are modelled with the real
numbers.  Two era-specific numpy behaviours that the source relies on
are modelled as follows: a comparison `arr == None` with an actual array
is `False` (so the corresponding branches are encoded directly with
`Option`), and `np.all(a == b)` for arrays of different shapes is
`False` (so data-sample identity is modelled by list equality; lists of
different lengths are never equal).  Infinite entries inside an
explicitly supplied `period` array are not representable in this model;
only `period = None` produces the internal all-infinite period, which is
modelled by keeping the `Option` around.
-/

/-- Shape of a point sample: list of k-dimensional points. -/
abbrev Sample := List (List ℝ)

/-- Model of `np.diff` on a 1-d array: consecutive differences,
`np_diff [a, b, c] = [b - a, c - b]`. -/
def np_diff {R : Type} [Sub R] : List R → List R
  | x :: y :: rest => (y - x) :: np_diff (y :: rest)
  | _ => []

/-- Model of `np.sum(list_of_rows, axis=0)`: element-wise sum of a list of
1-d arrays, as used to reduce per-chunk pair counts. -/
def vsum {R : Type} [Add R] : List (List R) → List R
  | [] => []
  | [x] => x
  | x :: y :: rest => List.zipWith (· + ·) x (vsum (y :: rest))

/-- Size of the first section `np.array_split` cuts from an array of
length `n` into `T` sections: `n / T`, rounded up when `T` does not
divide `n`. -/
def split_size (n T : ℕ) : ℕ := if n % T = 0 then n / T else n / T + 1

/-- Model of `np.array_split(l, T)`: split `l` into `T` contiguous parts,
the first `len l % T` of size `len l / T + 1` and the rest of size
`len l / T`.  The equivalent recursive form peels off the first part. -/
def array_split {α : Type} : List α → ℕ → List (List α)
  | _, 0 => []
  | l, T + 1 =>
    l.take (split_size l.length (T + 1)) ::
      array_split (l.drop (split_size l.length (T + 1))) T

/-- Model of the down-sampling idiom
`inds = shuffle(arange(len(s))); s = s[inds[0:mss]]`.  The shuffle is an
explicit oracle `shuf` giving the permuted index list for each length. -/
def downsample {α : Type} (shuf : ℕ → List ℕ) (s : List α) (mss : ℕ) : List α :=
  ((shuf s.length).take mss).filterMap (fun i => s[i]?)

/-- Model of `np.shape(sample)[-1]`, the dimensionality of an `(N, k)`
point sample. -/
def dim (s : Sample) : ℕ := (s.headD []).length

/-- Model of `np.max` on a nonempty 1-d array (`0` on the empty array,
where numpy would raise). -/
def np_max : List ℝ → ℝ
  | [] => 0
  | x :: xs => xs.foldl max x

/-- Model of `np.min` / builtin `min` on a nonempty 1-d array. -/
def np_min : List ℝ → ℝ
  | [] => 0
  | x :: xs => xs.foldl min x

/-- Element-wise combination of three equal-length arrays, used for the
numpy expressions that mention `DD`, `DR` and `RR` together. -/
def zipWith3 {α β γ δ : Type} (f : α → β → γ → δ) : List α → List β → List γ → List δ
  | a :: as, b :: bs, c :: cs => f a b c :: zipWith3 f as bs cs
  | _, _, _ => []

lemma np_diff_length {R : Type} [Sub R] (l : List R) :
    (np_diff l).length = l.length - 1 := by
  induction l with
  | nil => rfl
  | cons x xs ih =>
    cases xs with
    | nil => rfl
    | cons y t => simpa [np_diff] using ih

lemma np_diff_eq_nil {R : Type} [Sub R] (l : List R) (h : l.length ≤ 1) :
    np_diff l = [] := by
  have := np_diff_length l
  have hz : (np_diff l).length = 0 := by omega
  exact List.length_eq_zero.mp hz

lemma np_diff_map {α R : Type} [Sub R] (f : α → R) (l : List α) :
    np_diff (l.map f) = (l.zip l.tail).map (fun e => f e.2 - f e.1) := by
  induction l with
  | nil => rfl
  | cons x xs ih =>
    cases xs with
    | nil => rfl
    | cons y t => simpa [np_diff] using ih

lemma vsum_length {R : Type} [Add R] (l : List (List R)) (m : ℕ)
    (hne : l ≠ []) (h : ∀ x ∈ l, x.length = m) : (vsum l).length = m := by
  induction l with
  | nil => exact absurd rfl hne
  | cons x xs ih =>
    cases xs with
    | nil => simpa [vsum] using h x (by simp)
    | cons y t =>
      have hx : x.length = m := h x (by simp)
      have ht : (vsum (y :: t)).length = m := by
        refine ih (by simp) ?_
        intro z hz
        exact h z (List.mem_cons_of_mem _ hz)
      simp [vsum, List.length_zipWith, hx, ht]

lemma vsum_map_additive {α R : Type} [Add R] (f : List α → List R)
    (hadd : ∀ x y : List α, f (x ++ y) = List.zipWith (· + ·) (f x) (f y))
    (chunks : List (List α)) (hne : chunks ≠ []) :
    vsum (chunks.map f) = f chunks.flatten := by
  induction chunks with
  | nil => exact absurd rfl hne
  | cons c cs ih =>
    cases cs with
    | nil => simp [vsum]
    | cons c2 t =>
      have ihs := ih (by simp)
      simp only [List.map_cons] at ihs ⊢
      simp only [vsum]
      rw [ihs, ← hadd]
      simp

lemma array_split_flatten {α : Type} (l : List α) (T : ℕ) (hT : 1 ≤ T) :
    (array_split l T).flatten = l := by
  induction T generalizing l with
  | zero => omega
  | succ T ih =>
    cases T with
    | zero =>
      simp [array_split, split_size, Nat.mod_one, Nat.div_one]
    | succ T2 =>
      rw [array_split, List.flatten_cons, ih (l.drop _) (by omega)]
      exact List.take_append_drop _ l

lemma array_split_length {α : Type} (l : List α) (T : ℕ) :
    (array_split l T).length = T := by
  induction T generalizing l with
  | zero => rfl
  | succ T ih => simp [array_split, ih]

/-- Model of the inner `TP_estimator(DD, DR, RR, factor, estimator)` of
`two_point_correlation_function` (the jackknife variant is the same
code).  Numpy array expressions are element-wise, hence the `zipWith`;
an unsupported estimator name raises, hence the `Except`. -/
def TP_estimator {F : Type} [Field F] (DD DR RR : List F) (factor : F)
    (estimator : String) : Except String (List F) :=
  if estimator = "Natural" then
    .ok (List.zipWith (fun dd rr => (1/factor^2) * dd/rr - 1) DD RR)
  else if estimator = "Davis-Peebles" then
    .ok (List.zipWith (fun dd dr => (1/factor) * dd/dr - 1) DD DR)
  else if estimator = "Hewett" then
    .ok (zipWith3 (fun dd dr rr => (1/factor^2) * dd/rr - (1/factor) * dr/rr) DD DR RR)
  else if estimator = "Hamilton" then
    .ok (zipWith3 (fun dd dr rr => (dd*rr)/(dr*dr) - 1) DD DR RR)
  else if estimator = "Landy-Szalay" then
    .ok (zipWith3 (fun dd dr rr => (1/factor^2) * dd/rr - (1/factor) * 2 * dr/rr + 1) DD DR RR)
  else .error "unsupported estimator"

/-- The five supported estimator names, as listed by `list_estimators`. -/
def list_estimators : List String :=
  ["Natural", "Davis-Peebles", "Hewett", "Hamilton", "Landy-Szalay"]

lemma zipWith_congr_fun {α β γ : Type} {f g : α → β → γ}
    (h : ∀ a b, f a b = g a b) (l1 : List α) (l2 : List β) :
    List.zipWith f l1 l2 = List.zipWith g l1 l2 := by
  induction l1 generalizing l2 with
  | nil => rfl
  | cons a as ih =>
    cases l2 with
    | nil => rfl
    | cons b bs => simp [h, ih]

lemma zipWith3_congr_fun {α β γ δ : Type} {f g : α → β → γ → δ}
    (h : ∀ a b c, f a b c = g a b c) (l1 : List α) (l2 : List β) (l3 : List γ) :
    zipWith3 f l1 l2 l3 = zipWith3 g l1 l2 l3 := by
  induction l1 generalizing l2 l3 with
  | nil => rfl
  | cons a as ih =>
    cases l2 with
    | nil => rfl
    | cons b bs =>
      cases l3 with
      | nil => rfl
      | cons c cs => simp [zipWith3, h, ih]

/-- C1: for per-bin count arrays DD, DR, RR and a normalization factor
f > 0, `TP_estimator` returns element-wise per bin: Natural
DD/(f^2*RR) - 1, Davis-Peebles DD/(f*DR) - 1, Hewett
DD/(f^2*RR) - DR/(f*RR), Hamilton DD*RR/DR^2 - 1, Landy-Szalay
DD/(f^2*RR) - 2*DR/(f*RR) + 1. -/
theorem C1_TP_estimator_formulas (DD DR RR : List ℚ) (f : ℚ) (hf : 0 < f) :
    TP_estimator DD DR RR f "Natural"
      = .ok (List.zipWith (fun dd rr => dd/(f^2*rr) - 1) DD RR)
  ∧ TP_estimator DD DR RR f "Davis-Peebles"
      = .ok (List.zipWith (fun dd dr => dd/(f*dr) - 1) DD DR)
  ∧ TP_estimator DD DR RR f "Hewett"
      = .ok (zipWith3 (fun dd dr rr => dd/(f^2*rr) - dr/(f*rr)) DD DR RR)
  ∧ TP_estimator DD DR RR f "Hamilton"
      = .ok (zipWith3 (fun dd dr rr => dd*rr/dr^2 - 1) DD DR RR)
  ∧ TP_estimator DD DR RR f "Landy-Szalay"
      = .ok (zipWith3 (fun dd dr rr => dd/(f^2*rr) - 2*dr/(f*rr) + 1) DD DR RR) := by
  refine ⟨?_, ?_, ?_, ?_, ?_⟩
  · simp only [TP_estimator]
    rw [if_true]
    exact congrArg Except.ok (zipWith_congr_fun (fun dd rr => by ring) DD RR)
  · simp only [TP_estimator]
    rw [if_neg (by decide), if_true]
    exact congrArg Except.ok (zipWith_congr_fun (fun dd dr => by ring) DD DR)
  · simp only [TP_estimator]
    rw [if_neg (by decide), if_neg (by decide), if_true]
    exact congrArg Except.ok (zipWith3_congr_fun (fun dd dr rr => by ring) DD DR RR)
  · simp only [TP_estimator]
    rw [if_neg (by decide), if_neg (by decide), if_neg (by decide), if_true]
    exact congrArg Except.ok (zipWith3_congr_fun (fun dd dr rr => by ring) DD DR RR)
  · simp only [TP_estimator]
    rw [if_neg (by decide), if_neg (by decide), if_neg (by decide), if_neg (by decide),
        if_true]
    exact congrArg Except.ok (zipWith3_congr_fun (fun dd dr rr => by ring) DD DR RR)

/-- Witness for C1 at a concrete factor. -/
theorem C1_TP_estimator_formulas_witness :
    (0 : ℚ) < 2
  ∧ (TP_estimator [6] [3] [4] (2:ℚ) "Natural"
      = .ok (List.zipWith (fun dd rr => dd/((2:ℚ)^2*rr) - 1) [6] [4])
  ∧ TP_estimator [6] [3] [4] (2:ℚ) "Davis-Peebles"
      = .ok (List.zipWith (fun dd dr => dd/((2:ℚ)*dr) - 1) [6] [3])
  ∧ TP_estimator [6] [3] [4] (2:ℚ) "Hewett"
      = .ok (zipWith3 (fun dd dr rr => dd/((2:ℚ)^2*rr) - dr/(2*rr)) [6] [3] [4])
  ∧ TP_estimator [6] [3] [4] (2:ℚ) "Hamilton"
      = .ok (zipWith3 (fun dd dr rr : ℚ => dd*rr/dr^2 - 1) [6] [3] [4])
  ∧ TP_estimator [6] [3] [4] (2:ℚ) "Landy-Szalay"
      = .ok (zipWith3 (fun dd dr rr => dd/((2:ℚ)^2*rr) - 2*dr/(2*rr) + 1) [6] [3] [4])) :=
  ⟨by norm_num, C1_TP_estimator_formulas [6] [3] [4] 2 (by norm_num)⟩

/-- Model of the inner `pair_counts(sample1, sample2, rbins, period,
N_threads)` of `two_point_correlation_function`: data-data pair counts
D1D1, D1D2, D2D2, single-shot when `N_threads == 1` and otherwise by
splitting the first sample into `N_threads` chunks with
`np.array_split`, counting each chunk against the full other sample,
and reducing with an element-wise sum.  The external pair counter `cnt`
is a parameter; it returns cumulative counts which are then differenced
per bin. -/
def pair_counts {α β γ R : Type} [DecidableEq α] [Add R] [Sub R]
    (cnt : List α → List α → List β → γ → List R)
    (sample1 sample2 : List α) (rbins : List β) (period : γ) (N_threads : ℕ) :
    List R × List R × List R :=
  if N_threads = 1 then
    let D1D1 := np_diff (cnt sample1 sample1 rbins period)
    if sample1 = sample2 then (D1D1, D1D1, D1D1)
    else (D1D1, np_diff (cnt sample1 sample2 rbins period),
          np_diff (cnt sample2 sample2 rbins period))
  else
    let D1D1 := np_diff (vsum ((array_split sample1 N_threads).map
        (fun chunk => cnt chunk sample1 rbins period)))
    if sample1 = sample2 then (D1D1, D1D1, D1D1)
    else (D1D1,
      np_diff (vsum ((array_split sample1 N_threads).map
        (fun chunk => cnt chunk sample2 rbins period))),
      np_diff (vsum ((array_split sample2 N_threads).map
        (fun chunk => cnt chunk sample2 rbins period))))

lemma chunked_count_eq {α β γ R : Type} [Add R]
    (cnt : List α → List α → List β → γ → List R) (rbins : List β) (period : γ)
    (other s : List α)
    (hadd : ∀ x y : List α, cnt (x ++ y) other rbins period
        = List.zipWith (· + ·) (cnt x other rbins period) (cnt y other rbins period))
    (T : ℕ) (hT : 1 ≤ T) :
    vsum ((array_split s T).map (fun chunk => cnt chunk other rbins period))
      = cnt s other rbins period := by
  have hne : array_split s T ≠ [] := by
    intro h
    have hl := array_split_length s T
    rw [h] at hl
    simp at hl
    omega
  rw [vsum_map_additive (fun chunk => cnt chunk other rbins period) hadd _ hne,
      array_split_flatten s T hT]

/-- C4: for every pair of point sets, bin edges and periodicity, and
every worker count T >= 1, the chunked path of `pair_counts` (split the
first set into T contiguous partitions with `np.array_split`, count each
partition against the full other set, sum per-bin results element-wise)
returns exactly the per-bin counts of the single-shot `N_threads == 1`
path, provided the external pair counter is additive over a disjoint
partition of its first argument. -/
theorem C4_chunked_pair_counts {α β γ R : Type} [DecidableEq α] [Add R] [Sub R]
    (cnt : List α → List α → List β → γ → List R)
    (sample1 sample2 : List α) (rbins : List β) (period : γ) (T : ℕ)
    (hT : 1 ≤ T)
    (hadd : ∀ other x y : List α, cnt (x ++ y) other rbins period
        = List.zipWith (· + ·) (cnt x other rbins period) (cnt y other rbins period)) :
    pair_counts cnt sample1 sample2 rbins period T
      = pair_counts cnt sample1 sample2 rbins period 1 := by
  rcases eq_or_ne T 1 with h | h
  · rw [h]
  · simp only [pair_counts, if_neg h, if_pos rfl]
    rw [chunked_count_eq cnt rbins period sample1 sample1 (hadd sample1) T hT,
        chunked_count_eq cnt rbins period sample2 sample1 (hadd sample2) T hT,
        chunked_count_eq cnt rbins period sample2 sample2 (hadd sample2) T hT]
    simp

/-- Witness for C4 with a concrete additive counter and T = 3. -/
theorem C4_chunked_pair_counts_witness :
    (1 ≤ 3
  ∧ (∀ other x y : List ℕ,
      (fun a b : List ℕ => fun _ : List ℚ => fun _ : Unit =>
          [(0:ℚ), (a.length : ℚ) * (b.length : ℚ)]) (x ++ y) other [1, 2] ()
        = List.zipWith (· + ·)
          ((fun a b : List ℕ => fun _ : List ℚ => fun _ : Unit =>
            [(0:ℚ), (a.length : ℚ) * (b.length : ℚ)]) x other [1, 2] ())
          ((fun a b : List ℕ => fun _ : List ℚ => fun _ : Unit =>
            [(0:ℚ), (a.length : ℚ) * (b.length : ℚ)]) y other [1, 2] ())))
  ∧ pair_counts (fun a b : List ℕ => fun _ : List ℚ => fun _ : Unit =>
        [(0:ℚ), (a.length : ℚ) * (b.length : ℚ)]) [5, 6, 7, 8, 9] [1, 2] [1, 2] () 3
      = pair_counts (fun a b : List ℕ => fun _ : List ℚ => fun _ : Unit =>
        [(0:ℚ), (a.length : ℚ) * (b.length : ℚ)]) [5, 6, 7, 8, 9] [1, 2] [1, 2] () 1 := by
  have hadd : ∀ other x y : List ℕ,
      (fun a b : List ℕ => fun _ : List ℚ => fun _ : Unit =>
          [(0:ℚ), (a.length : ℚ) * (b.length : ℚ)]) (x ++ y) other [1, 2] ()
        = List.zipWith (· + ·)
          ((fun a b : List ℕ => fun _ : List ℚ => fun _ : Unit =>
            [(0:ℚ), (a.length : ℚ) * (b.length : ℚ)]) x other [1, 2] ())
          ((fun a b : List ℕ => fun _ : List ℚ => fun _ : Unit =>
            [(0:ℚ), (a.length : ℚ) * (b.length : ℚ)]) y other [1, 2] ()) := by
    intro other x y
    simp [List.length_append]
    ring
  exact ⟨⟨by norm_num, hadd⟩,
    C4_chunked_pair_counts _ [5, 6, 7, 8, 9] [1, 2] [1, 2] () 3 (by norm_num) hadd⟩

/-- Model of the inner `nball_volume(R, k)` of
`two_point_correlation_function`: volume of a k-sphere of radius R,
`(pi**(k/2.0)/gamma(k/2.0+1.0))*R**k`. -/
noncomputable def nball_volume (R : ℝ) (k : ℕ) : ℝ :=
  (Real.pi ^ ((k : ℝ)/2) / Real.Gamma ((k : ℝ)/2 + 1)) * R ^ k

/-- The external pair counter `npairs(sample1, sample2, rbins, period)`:
returns cumulative pair counts, one per bin edge.  The `period` argument
is kept in its unprocessed `Option` form (`none` models the all-infinite
period array that the source builds when `period=None`). -/
abbrev Counter := Sample → Sample → List ℝ → Option (List ℝ) → List ℝ

/-- Model of the inner `random_counts(sample1, sample2, randoms, rbins,
period, PBCs, k, N_threads)` of `two_point_correlation_function`.
Returns `(D1R, D2R, RR)`; `D2R` is `None` exactly when the source sets
it to `None` (the auto-correlation cases).  With no PBCs, or with PBCs
and an explicit random catalog, counts are empirical via the external
counter (single-shot or chunked); with PBCs and no randoms they are the
analytic expected counts from the n-ball shell volumes and the point
density.  In the `PBCs == False` branch the source requires `randoms`
to have been provided (checked by the caller); `Option.getD` stands in
for the unreachable missing case. -/
noncomputable def random_counts (cnt : Counter) (sample1 sample2 : Sample)
    (randoms : Option Sample) (rbins : List ℝ) (periodOpt : Option (List ℝ))
    (PBCs : Bool) (k : ℕ) (N_threads : ℕ) :
    List ℝ × Option (List ℝ) × List ℝ :=
  if PBCs = false then
    let rnd := randoms.getD []
    if N_threads = 1 then
      let RR := np_diff (cnt rnd rnd rbins periodOpt)
      let D1R := np_diff (cnt sample1 rnd rbins periodOpt)
      let D2R := if sample1 = sample2 then none
        else some (np_diff (cnt sample2 rnd rbins periodOpt))
      (D1R, D2R, RR)
    else
      let RR := np_diff (vsum ((array_split rnd N_threads).map
        (fun chunk => cnt chunk rnd rbins periodOpt)))
      let D1R := np_diff (vsum ((array_split sample1 N_threads).map
        (fun chunk => cnt chunk rnd rbins periodOpt)))
      let D2R := if sample1 = sample2 then none
        else some (np_diff (vsum ((array_split sample2 N_threads).map
          (fun chunk => cnt chunk rnd rbins periodOpt))))
      (D1R, D2R, RR)
  else
    match randoms with
    | some rnd =>
      if N_threads = 1 then
        let RR := np_diff (cnt rnd rnd rbins periodOpt)
        let D1R := np_diff (cnt sample1 rnd rbins periodOpt)
        let D2R := if sample1 = sample2 then none
          else some (np_diff (cnt sample2 rnd rbins periodOpt))
        (D1R, D2R, RR)
      else
        let RR := np_diff (vsum ((array_split rnd N_threads).map
          (fun chunk => cnt chunk rnd rbins periodOpt)))
        let D1R := np_diff (vsum ((array_split sample1 N_threads).map
          (fun chunk => cnt chunk rnd rbins periodOpt)))
        let D2R := if sample1 = sample2 then none
          else some (np_diff (vsum ((array_split sample2 N_threads).map
            (fun chunk => cnt chunk rnd rbins periodOpt))))
        (D1R, D2R, RR)
    | none =>
      let dv := np_diff (rbins.map (fun r => nball_volume r k))
      let global_volume := (periodOpt.getD []).prod
      let N1 : ℝ := sample1.length
      let rho1 := N1 / global_volume
      let D1R := dv.map (fun v => N1 * (v * rho1))
      if sample1 = sample2 then (D1R, none, D1R)
      else
        let N2 : ℝ := sample2.length
        let rho2 := N2 / global_volume
        let D2R := dv.map (fun v => N2 * (v * rho2))
        let NR := N1 * N2
        let rhor := NR / global_volume
        let RR := dv.map (fun v => v * rhor)
        (D1R, some D2R, RR)

/-- C2: in the analytic mode (PBCs active, no random catalog), the
data-random count for sample1 is, per bin,
N1^2 * (V(r_hi) - V(r_lo)) / V_box with V the k-ball volume
pi^(k/2)/Gamma(k/2+1) * r^k at the bin edges and V_box the product of
the box lengths; and for two distinct samples the cross random-random
count is, per bin, N1 * N2 * (V(r_hi) - V(r_lo)) / V_box. -/
theorem C2_analytic_random_counts (cnt : Counter) (sample1 sample2 : Sample)
    (rbins : List ℝ) (p : List ℝ) (k : ℕ) (T : ℕ)
    (hcross : sample1 ≠ sample2) :
    (random_counts cnt sample1 sample2 none rbins (some p) true k T).1
      = (rbins.zip rbins.tail).map (fun e =>
          (sample1.length : ℝ)^2
            * ((Real.pi ^ ((k : ℝ)/2) / Real.Gamma ((k : ℝ)/2 + 1)) * e.2 ^ k
               - (Real.pi ^ ((k : ℝ)/2) / Real.Gamma ((k : ℝ)/2 + 1)) * e.1 ^ k)
            / p.prod)
  ∧ (random_counts cnt sample1 sample2 none rbins (some p) true k T).2.2
      = (rbins.zip rbins.tail).map (fun e =>
          (sample1.length : ℝ) * (sample2.length : ℝ)
            * ((Real.pi ^ ((k : ℝ)/2) / Real.Gamma ((k : ℝ)/2 + 1)) * e.2 ^ k
               - (Real.pi ^ ((k : ℝ)/2) / Real.Gamma ((k : ℝ)/2 + 1)) * e.1 ^ k)
            / p.prod) := by
  constructor
  · simp only [random_counts, if_neg hcross]
    simp only [np_diff_map, List.map_map]
    refine List.map_congr_left ?_
    intro e _
    simp [nball_volume]
    ring
  · simp only [random_counts, if_neg hcross]
    simp only [np_diff_map, List.map_map]
    refine List.map_congr_left ?_
    intro e _
    simp [nball_volume]
    ring

/-- Witness for C2 with two distinct concrete samples. -/
theorem C2_analytic_random_counts_witness :
    ([[(0:ℝ)]] : Sample) ≠ [[0], [1]]
  ∧ ((random_counts (fun _ _ _ _ => []) [[(0:ℝ)]] [[0], [1]] none [1, 2] (some [3]) true 1 1).1
      = ([(1:ℝ), 2].zip [(1:ℝ), 2].tail).map (fun e =>
          (([[(0:ℝ)]] : Sample).length : ℝ)^2
            * ((Real.pi ^ (((1:ℕ) : ℝ)/2) / Real.Gamma (((1:ℕ) : ℝ)/2 + 1)) * e.2 ^ 1
               - (Real.pi ^ (((1:ℕ) : ℝ)/2) / Real.Gamma (((1:ℕ) : ℝ)/2 + 1)) * e.1 ^ 1)
            / ([(3:ℝ)]).prod)
  ∧ (random_counts (fun _ _ _ _ => []) [[(0:ℝ)]] [[0], [1]] none [1, 2] (some [3]) true 1 1).2.2
      = ([(1:ℝ), 2].zip [(1:ℝ), 2].tail).map (fun e =>
          (([[(0:ℝ)]] : Sample).length : ℝ) * (([[(0:ℝ)], [1]] : Sample).length : ℝ)
            * ((Real.pi ^ (((1:ℕ) : ℝ)/2) / Real.Gamma (((1:ℕ) : ℝ)/2 + 1)) * e.2 ^ 1
               - (Real.pi ^ (((1:ℕ) : ℝ)/2) / Real.Gamma (((1:ℕ) : ℝ)/2 + 1)) * e.1 ^ 1)
            / ([(3:ℝ)]).prod)) :=
  ⟨by simp, C2_analytic_random_counts (fun _ _ _ _ => []) [[0]] [[0], [1]] [1, 2] [3] 1 1
    (by simp)⟩

/-- C3 counterexample: the original claim quantifies over every
auto-correlation call, sample2 absent included, but a sample2-absent
call whose sample1 exceeds `max_sample_size` is down-sampled while the
sample2 alias keeps the full array, so the equality test on the
analytic branch fails and the cross arm computes RR differently from
D1R.  Concretely, in the call with sample1 two points, sample2 absent,
`max_sample_size = 1`, rbins = [1, 2] and period = [10], the samples
reaching `random_counts` are the down-sampled `[[0]]` against the full
`[[0], [1]]` (first conjunct), and there the random-random count
dv * N1 * N2 / V differs from the data-random count N1^2 * dv / V
(second conjunct). -/
theorem C3_downsampled_cross_RR_ne_DR :
    downsample (fun n => List.range n) [[(0:ℝ)], [1]] 1 = [[0]]
  ∧ (random_counts ((fun _ _ _ _ => []) : Counter) [[(0:ℝ)]] [[0], [1]] none [1, 2]
      (some [10]) true 1 1).2.2
    ≠ (random_counts ((fun _ _ _ _ => []) : Counter) [[(0:ℝ)]] [[0], [1]] none [1, 2]
      (some [10]) true 1 1).1 := by
  constructor
  · simp [downsample, List.range_succ]
  · have hc : (0:ℝ) < Real.pi ^ ((2⁻¹ : ℝ)) / Real.Gamma ((2⁻¹ : ℝ) + 1) := by
      apply div_pos
      · exact Real.rpow_pos_of_pos Real.pi_pos _
      · apply Real.Gamma_pos_of_pos
        norm_num
    intro heq
    simp only [random_counts, nball_volume, np_diff, List.map_cons, List.map_nil,
      List.prod_cons, List.prod_nil] at heq
    simp at heq
    rcases heq with h | h
    · norm_num at h
    · linarith

/-- C3 (amended): in the analytic mode, for a call whose two samples
are still element-wise equal when the analytic random counts are taken
(the source aliases an absent sample2 to sample1, and the alias
survives whenever sample1 is not down-sampled), the random-random count
equals the data-random count exactly, in every bin. -/
theorem C3_analytic_auto_RR_eq_DR (cnt : Counter) (sample1 sample2 : Sample)
    (rbins : List ℝ) (p : List ℝ) (k : ℕ) (T : ℕ)
    (hauto : sample1 = sample2) :
    (random_counts cnt sample1 sample2 none rbins (some p) true k T).2.2
      = (random_counts cnt sample1 sample2 none rbins (some p) true k T).1 := by
  subst hauto
  simp [random_counts]

/-- Witness for the amended C3 at a concrete auto-correlation input. -/
theorem C3_analytic_auto_RR_eq_DR_witness :
    ([[(0:ℝ)], [1]] : Sample) = [[0], [1]]
  ∧ (random_counts (fun _ _ _ _ => []) [[(0:ℝ)], [1]] [[0], [1]] none [1, 2] (some [5]) true 3 1).2.2
      = (random_counts (fun _ _ _ _ => []) [[(0:ℝ)], [1]] [[0], [1]] none [1, 2] (some [5]) true 3 1).1 :=
  ⟨rfl, C3_analytic_auto_RR_eq_DR (fun _ _ _ _ => []) [[0], [1]] [[0], [1]] [1, 2] [5] 3 1 rfl⟩

lemma zipWith3_length {α β γ δ : Type} (f : α → β → γ → δ)
    (l1 : List α) (l2 : List β) (l3 : List γ) :
    (zipWith3 f l1 l2 l3).length = min l1.length (min l2.length l3.length) := by
  induction l1 generalizing l2 l3 with
  | nil => simp [zipWith3]
  | cons a as ih =>
    cases l2 with
    | nil => simp [zipWith3]
    | cons b bs =>
      cases l3 with
      | nil => simp [zipWith3]
      | cons c cs =>
        simp [zipWith3, ih]
        omega

lemma TP_estimator_nil {F : Type} [Field F] (f : F) (est : String)
    (hest : est ∈ list_estimators) :
    TP_estimator ([] : List F) [] [] f est = .ok [] := by
  simp only [list_estimators, List.mem_cons, List.not_mem_nil, or_false] at hest
  rcases hest with h | h | h | h | h <;> subst h <;> simp [TP_estimator, zipWith3]

lemma TP_estimator_ok_of_mem {F : Type} [Field F] (DD DR RR : List F) (f : F)
    (est : String) (hest : est ∈ list_estimators) (m : ℕ)
    (hDD : DD.length = m) (hDR : DR.length = m) (hRR : RR.length = m) :
    ∃ xi, TP_estimator DD DR RR f est = .ok xi ∧ xi.length = m := by
  simp only [list_estimators, List.mem_cons, List.not_mem_nil, or_false] at hest
  rcases hest with h | h | h | h | h <;> subst h <;>
    simp [TP_estimator, List.length_zipWith, zipWith3_length, hDD, hDR, hRR]

/-- Bin-edge sanity check of `two_point_correlation_function`: with an
explicit period, `np.max(rbins) > np.min(period)/2.0` is an error; with
`period=None` the internal period is all-infinite and the comparison is
never true. -/
noncomputable def rbins_check (rbins : List ℝ) (periodOpt : Option (List ℝ)) : Bool :=
  match periodOpt with
  | some p => decide (np_max rbins > np_min p / 2)
  | none => false

/-- Model of `two_point_correlation_function(sample1, rbins, sample2,
randoms, period, max_sample_size, estimator, N_threads)`.  Raised
`ValueError`s become `Except.error`; the returned value is either the
single auto-correlation array `xi_11` or the triple
`(xi_11, xi_12, xi_22)`.  The external pair counter `cnt` and the random
shuffle `shuf` used for down-sampling are explicit parameters.  The
unreached `period` scalar-broadcast branch and the check that an
explicit period has no infinite entries (not representable here) are
not modelled; the remaining control flow follows the source line by
line. -/
noncomputable def two_point_correlation_function (cnt : Counter) (shuf : ℕ → List ℕ)
    (sample1 : Sample) (rbins : List ℝ) (sample2opt : Option Sample)
    (randoms : Option Sample) (periodOpt : Option (List ℝ))
    (max_sample_size : ℕ) (estimator : String) (N_threads : ℕ) :
    Except String ((List ℝ) ⊕ (List ℝ × List ℝ × List ℝ)) :=
  let sample2 := sample2opt.getD sample1
  let PBCs := periodOpt.isSome
  if periodOpt.isSome ∧ (periodOpt.getD []).length ≠ dim sample1 then
    .error "period should have shape (k,)"
  else
    let sample2 := if max_sample_size < sample2.length ∧ ¬(sample1 = sample2)
      then downsample shuf sample2 max_sample_size else sample2
    let sample1 := if max_sample_size < sample1.length
      then downsample shuf sample1 max_sample_size else sample1
    let k := dim sample1
    if rbins_check rbins periodOpt then
      .error "Cannot calculate for seperations larger than Lbox/2."
    else if dim sample1 ≠ dim sample2 then
      .error "Sample 1 and sample 2 must have same dimension."
    else if randoms = none ∧ periodOpt = none then
      .error "If no PBCs are specified, randoms must be provided."
    else if estimator ∉ list_estimators then
      .error "Must specify a supported estimator."
    else
      let factor1 : ℝ := match randoms with
        | some rnd => (sample1.length : ℝ) / rnd.length
        | none => 1
      let factor2 : ℝ := match randoms with
        | some rnd => (sample2.length : ℝ) / rnd.length
        | none => 1
      let factor3 : ℝ := match randoms with
        | some rnd => (sample1.length : ℝ) ^ ((0.5 : ℝ))
            * (sample2.length : ℝ) ^ ((0.5 : ℝ)) / rnd.length
        | none => 1
      let dd := pair_counts cnt sample1 sample2 rbins periodOpt N_threads
      let rc := random_counts cnt sample1 sample2 randoms rbins periodOpt PBCs k N_threads
      if sample2 = sample1 then do
        let xi_11 ← TP_estimator dd.1 rc.1 rc.2.2 factor1 estimator
        return .inl xi_11
      else if PBCs = true ∧ randoms = none then do
        let xi_11 ← TP_estimator dd.1 rc.1 rc.1 1 estimator
        let xi_12 ← TP_estimator dd.2.1 rc.1 rc.2.2 1 estimator
        let xi_22 ← TP_estimator dd.2.2 (rc.2.1.getD []) (rc.2.1.getD []) 1 estimator
        return .inr (xi_11, xi_12, xi_22)
      else do
        let xi_11 ← TP_estimator dd.1 rc.1 rc.2.2 factor1 estimator
        let xi_12 ← TP_estimator dd.2.1 rc.1 rc.2.2 factor3 estimator
        let xi_22 ← TP_estimator dd.2.2 (rc.2.1.getD []) rc.2.2 factor2 estimator
        return .inr (xi_11, xi_12, xi_22)

/-- C7: with `period = None` and `randoms = None`, the function raises a
configuration error synchronously, whatever the remaining arguments;
the result does not depend on the external pair counter at all, so no
pair counting can have been performed and no partial result is
produced. -/
theorem C7_no_period_no_randoms_error (cnt cnt2 : Counter) (shuf : ℕ → List ℕ)
    (sample1 : Sample) (rbins : List ℝ) (sample2opt : Option Sample)
    (mss : ℕ) (estimator : String) (T : ℕ) :
    (∃ e, two_point_correlation_function cnt shuf sample1 rbins sample2opt
        none none mss estimator T = .error e)
  ∧ two_point_correlation_function cnt shuf sample1 rbins sample2opt
        none none mss estimator T
      = two_point_correlation_function cnt2 shuf sample1 rbins sample2opt
        none none mss estimator T := by
  constructor
  · simp only [two_point_correlation_function]
    simp [rbins_check]
    split_ifs <;> exact ⟨_, rfl⟩
  · simp only [two_point_correlation_function]
    simp [rbins_check]

lemma chunked_count_length {α β γ R : Type} [Add R]
    (cnt : List α → List α → List β → γ → List R) (rbins : List β) (period : γ)
    (other s : List α) (T : ℕ) (hT : 1 ≤ T) (m : ℕ)
    (hlen : ∀ a b, (cnt a b rbins period).length = m) :
    (vsum ((array_split s T).map (fun chunk => cnt chunk other rbins period))).length
      = m := by
  refine vsum_length _ m ?_ ?_
  · intro h
    have h2 : array_split s T = [] := by
      cases hsp : array_split s T with
      | nil => rfl
      | cons a l => rw [hsp] at h; simp at h
    have hl := array_split_length s T
    rw [h2] at hl
    simp at hl
    omega
  · intro x hx
    rw [List.mem_map] at hx
    obtain ⟨c, _, rfl⟩ := hx
    exact hlen c other

lemma pair_counts_auto_len {α β γ R : Type} [DecidableEq α] [Add R] [Sub R]
    (cnt : List α → List α → List β → γ → List R)
    (s : List α) (rbins : List β) (period : γ) (T : ℕ) (hT : 1 ≤ T) (m : ℕ)
    (hlen : ∀ a b, (cnt a b rbins period).length = m) :
    ((pair_counts cnt s s rbins period T).1).length = m - 1 := by
  rcases eq_or_ne T 1 with h | h
  · subst h
    simp [pair_counts, np_diff_length, hlen]
  · have hv := chunked_count_length cnt rbins period s s T hT m hlen
    simp [pair_counts, if_neg h, np_diff_length, hv]

lemma random_counts_auto_len (cnt : Counter) (s : Sample) (randoms : Option Sample)
    (rbins : List ℝ) (periodOpt : Option (List ℝ)) (PBCs : Bool) (k : ℕ) (T : ℕ)
    (hT : 1 ≤ T)
    (hlen : ∀ a b, (cnt a b rbins periodOpt).length = rbins.length) :
    ((random_counts cnt s s randoms rbins periodOpt PBCs k T).1).length
        = rbins.length - 1
  ∧ ((random_counts cnt s s randoms rbins periodOpt PBCs k T).2.2).length
        = rbins.length - 1 := by
  rcases PBCs with _ | _
  · rcases eq_or_ne T 1 with h | h
    · subst h
      simp [random_counts, np_diff_length, hlen]
    · have hv1 := chunked_count_length cnt rbins periodOpt (randoms.getD []) s
        T hT rbins.length hlen
      have hv2 := chunked_count_length cnt rbins periodOpt (randoms.getD [])
        (randoms.getD []) T hT rbins.length hlen
      simp [random_counts, if_neg h, np_diff_length, hv1, hv2]
  · rcases randoms with _ | rnd
    · have hdv : (np_diff (rbins.map (fun r => nball_volume r k))).length
          = rbins.length - 1 := by
        rw [np_diff_length, List.length_map]
      simp [random_counts, hdv]
    · rcases eq_or_ne T 1 with h | h
      · subst h
        simp [random_counts, np_diff_length, hlen]
      · have hv1 := chunked_count_length cnt rbins periodOpt rnd s
          T hT rbins.length hlen
        have hv2 := chunked_count_length cnt rbins periodOpt rnd rnd
          T hT rbins.length hlen
        simp [random_counts, if_neg h, np_diff_length, hv1, hv2]

/-- C6 counterexample: a call with `sample2 = None` whose sample1 is
larger than `max_sample_size`.  Down-sampling rebinds sample1 while the
sample2 alias keeps pointing at the original full array, the
`np.all(sample1 == sample2)` test then fails, and the function takes
the cross-correlation path: it returns a triple, not a single array. -/
theorem C6_downsampled_returns_triple :
    (match two_point_correlation_function (fun _ _ _ _ => [0, 0])
        (fun n => List.range n) [[0], [1]] [1, 2] none none (some [10]) 1 "Natural" 1 with
     | .ok (.inr _) => True
     | _ => False) := by
  have hds : downsample (fun n => List.range n) [[(0:ℝ)], [1]] 1 = [[0]] := by
    simp [downsample, List.range_succ]
  have hchk : rbins_check [1, 2] (some [10]) = false := by
    have h : ¬(np_min [10] / 2 < np_max [1, 2]) := by
      simp only [np_max, np_min, List.foldl]
      rw [max_eq_right (by norm_num)]
      norm_num
    simp [rbins_check, h]
  simp only [two_point_correlation_function]
  simp [dim, hds, hchk, list_estimators, TP_estimator, Except.bind]
  exact trivial

/-- C6 (amended): with `sample2 = None` and sample1 small enough not to
be down-sampled, the call is identical to the aliased call with
`sample2 = sample1`, and any non-error result is a single
auto-correlation array of length `len(rbins) - 1`, never a triple. -/
theorem C6_sample2_none_auto (cnt : Counter) (shuf : ℕ → List ℕ)
    (sample1 : Sample) (rbins : List ℝ) (randoms : Option Sample)
    (periodOpt : Option (List ℝ)) (mss : ℕ) (est : String) (T : ℕ)
    (hT : 1 ≤ T) (hmss : sample1.length ≤ mss)
    (hlen : ∀ a b, (cnt a b rbins periodOpt).length = rbins.length) :
    (two_point_correlation_function cnt shuf sample1 rbins none randoms
        periodOpt mss est T
      = two_point_correlation_function cnt shuf sample1 rbins (some sample1) randoms
        periodOpt mss est T)
  ∧ ((∃ e, two_point_correlation_function cnt shuf sample1 rbins none randoms
        periodOpt mss est T = .error e)
    ∨ (∃ xi, two_point_correlation_function cnt shuf sample1 rbins none randoms
        periodOpt mss est T = .ok (.inl xi) ∧ xi.length = rbins.length - 1)) := by
  have hns : ¬(mss < sample1.length) := Nat.not_lt.mpr hmss
  constructor
  · rfl
  · by_cases h1 : periodOpt.isSome ∧ (periodOpt.getD []).length ≠ dim sample1
    · left
      exact ⟨"period should have shape (k,)", by
        simp [two_point_correlation_function, h1]⟩
    · by_cases h2 : rbins_check rbins periodOpt = true
      · left
        exact ⟨"Cannot calculate for seperations larger than Lbox/2.", by
          simp [two_point_correlation_function, h1, h2, hns]⟩
      · by_cases h3 : randoms = none ∧ periodOpt = none
        · left
          exact ⟨"If no PBCs are specified, randoms must be provided.", by
            simp [two_point_correlation_function, rbins_check, h1, h2, h3, hns]⟩
        · by_cases h4 : est ∈ list_estimators
          · right
            have hdd := pair_counts_auto_len cnt sample1 rbins periodOpt T hT
              rbins.length hlen
            have hrc := random_counts_auto_len cnt sample1 randoms rbins periodOpt
              periodOpt.isSome (dim sample1) T hT hlen
            rcases hrnd : randoms with _ | rnd
            · rw [hrnd] at hrc
              obtain ⟨xi, hok, hxl⟩ := TP_estimator_ok_of_mem
                (pair_counts cnt sample1 sample1 rbins periodOpt T).1
                (random_counts cnt sample1 sample1 none rbins periodOpt
                  periodOpt.isSome (dim sample1) T).1
                (random_counts cnt sample1 sample1 none rbins periodOpt
                  periodOpt.isSome (dim sample1) T).2.2
                (1 : ℝ) est h4 (rbins.length - 1) hdd hrc.1 hrc.2
              refine ⟨xi, ?_, hxl⟩
              rw [hrnd] at h3
              have hpo : ¬(periodOpt = none) := fun hh => h3 ⟨rfl, hh⟩
              simp [two_point_correlation_function, h1, h2, hpo, h4, hns, hok,
                Except.map_ok]
            · rw [hrnd] at hrc
              obtain ⟨xi, hok, hxl⟩ := TP_estimator_ok_of_mem
                (pair_counts cnt sample1 sample1 rbins periodOpt T).1
                (random_counts cnt sample1 sample1 (some rnd) rbins periodOpt
                  periodOpt.isSome (dim sample1) T).1
                (random_counts cnt sample1 sample1 (some rnd) rbins periodOpt
                  periodOpt.isSome (dim sample1) T).2.2
                ((sample1.length : ℝ) / rnd.length) est h4 (rbins.length - 1)
                hdd hrc.1 hrc.2
              refine ⟨xi, ?_, hxl⟩
              simp [two_point_correlation_function, h1, h2, h4, hns, hok,
                Except.map_ok]
          · left
            exact ⟨"Must specify a supported estimator.", by
              simp [two_point_correlation_function, h1, h2, h3, h4, hns]⟩

/-- Witness for the amended C6 at a concrete small sample. -/
theorem C6_sample2_none_auto_witness :
    ((1 ≤ 1 ∧ ([[(0:ℝ), 0, 0]] : Sample).length ≤ 10)
  ∧ (∀ a b : Sample, (((fun _ _ r _ => r.map (fun _ => (0:ℝ))) : Counter) a b [1, 2]
        (some [4, 4, 4] : Option (List ℝ))).length = [(1:ℝ), 2].length))
  ∧ ((two_point_correlation_function ((fun _ _ r _ => r.map (fun _ => (0:ℝ))) : Counter)
        (fun n => List.range n) [[0, 0, 0]] [1, 2] none none (some [4, 4, 4]) 10 "Natural" 1
      = two_point_correlation_function ((fun _ _ r _ => r.map (fun _ => (0:ℝ))) : Counter)
        (fun n => List.range n) [[0, 0, 0]] [1, 2] (some [[0, 0, 0]]) none
        (some [4, 4, 4]) 10 "Natural" 1)
  ∧ ((∃ e, two_point_correlation_function ((fun _ _ r _ => r.map (fun _ => (0:ℝ))) : Counter)
        (fun n => List.range n) [[0, 0, 0]] [1, 2] none none (some [4, 4, 4]) 10 "Natural" 1
        = .error e)
    ∨ (∃ xi, two_point_correlation_function ((fun _ _ r _ => r.map (fun _ => (0:ℝ))) : Counter)
        (fun n => List.range n) [[0, 0, 0]] [1, 2] none none (some [4, 4, 4]) 10 "Natural" 1
        = .ok (.inl xi) ∧ xi.length = [(1:ℝ), 2].length - 1))) :=
  ⟨⟨⟨le_rfl, by norm_num⟩, fun a b => by simp⟩,
    C6_sample2_none_auto ((fun _ _ r _ => r.map (fun _ => (0:ℝ))) : Counter)
      (fun n => List.range n) [[0, 0, 0]] [1, 2] none (some [4, 4, 4]) 10 "Natural" 1
      le_rfl (by norm_num) (fun a b => by simp)⟩

lemma pair_counts_short {α β γ R : Type} [DecidableEq α] [Add R] [Sub R]
    (cnt : List α → List α → List β → γ → List R)
    (s1 s2 : List α) (rbins : List β) (period : γ) (T : ℕ) (hT : 1 ≤ T)
    (m : ℕ) (hm : m ≤ 1)
    (hlen : ∀ a b, (cnt a b rbins period).length = m) :
    pair_counts cnt s1 s2 rbins period T = ([], [], []) := by
  have hnil : ∀ a b : List α, np_diff (cnt a b rbins period) = [] := fun a b =>
    np_diff_eq_nil _ (by rw [hlen]; exact hm)
  have hcnil : ∀ a b : List α, np_diff (vsum ((array_split a T).map
      (fun chunk => cnt chunk b rbins period))) = [] := fun a b =>
    np_diff_eq_nil _ (by
      rw [chunked_count_length cnt rbins period b a T hT m hlen]; exact hm)
  rcases eq_or_ne T 1 with h | h
  · subst h
    simp [pair_counts, hnil]
  · simp [pair_counts, if_neg h, hcnil]

/-- C9: a call with a single bin edge (zero bins) that passes all the
configuration checks returns an empty per-bin array rather than raising:
differencing the single cumulative count yields an empty array and every
estimator maps empty count arrays to an empty result.  Stated here for
the auto-correlation form of the call (`sample2 = None`), with analytic
randoms. -/
theorem C9_single_bin_edge_empty (cnt : Counter) (shuf : ℕ → List ℕ)
    (sample1 : Sample) (r : ℝ) (p : List ℝ) (mss : ℕ) (est : String) (T : ℕ)
    (hpl : p.length = dim sample1)
    (hrb : r ≤ np_min p / 2)
    (hmss : sample1.length ≤ mss)
    (hlen : ∀ a b, (cnt a b [r] (some p)).length = 1)
    (hest : est ∈ list_estimators)
    (hT : 1 ≤ T) :
    two_point_correlation_function cnt shuf sample1 [r] none none (some p) mss est T
      = .ok (.inl []) := by
  have hns : ¬(mss < sample1.length) := Nat.not_lt.mpr hmss
  have hchk : rbins_check [r] (some p) = false := by
    have h : ¬(np_min p / 2 < np_max [r]) := by
      simp only [np_max, List.foldl]
      exact not_lt.mpr hrb
    simp [rbins_check, h]
  have hdd := pair_counts_short cnt sample1 sample1 [r] (some p) T hT 1 le_rfl hlen
  have hrc : random_counts cnt sample1 sample1 none [r] (some p) true
      (dim sample1) T = ([], none, []) := by
    simp [random_counts, np_diff]
  have hTP := TP_estimator_nil (1 : ℝ) est hest
  simp [two_point_correlation_function, hpl, hns, hchk, hest, hdd, hrc, hTP,
    Except.map_ok]

/-- Witness for C9 at a concrete valid configuration. -/
theorem C9_single_bin_edge_empty_witness :
    (([(4:ℝ), 4, 4].length = dim [[0, 0, 0]]
  ∧ (1:ℝ) ≤ np_min [4, 4, 4] / 2
  ∧ ([[(0:ℝ), 0, 0]] : Sample).length ≤ 5)
  ∧ ((∀ a b : Sample, (((fun _ _ r2 _ => r2.map (fun _ => (0:ℝ))) : Counter)
        a b [1] (some [4, 4, 4])).length = 1)
  ∧ "Natural" ∈ list_estimators ∧ 1 ≤ 1))
  ∧ two_point_correlation_function ((fun _ _ r2 _ => r2.map (fun _ => (0:ℝ))) : Counter)
      (fun n => List.range n) [[0, 0, 0]] [1] none none (some [4, 4, 4]) 5 "Natural" 1
      = .ok (.inl []) :=
  ⟨⟨⟨rfl, by norm_num [np_min], by norm_num⟩,
    ⟨fun a b => rfl, by simp [list_estimators], le_rfl⟩⟩,
    C9_single_bin_edge_empty ((fun _ _ r2 _ => r2.map (fun _ => (0:ℝ))) : Counter)
      (fun n => List.range n) [[0, 0, 0]] 1 [4, 4, 4] 5 "Natural" 1
      rfl (by norm_num [np_min]) (by norm_num) (fun a b => rfl)
      (by simp [list_estimators]) le_rfl⟩

/-- Model of the inner `jackknife_errors(sub, full, N_sub_vol)` of
`two_point_correlation_function_jackknife`: `sub` holds one row of
per-bin leave-one-out estimates per subvolume, `full` the full-sample
estimate; the row-wise broadcast subtraction, squaring, column sum,
scaling by `(N_sub_vol-1)/N_sub_vol` and the final `**0.5` mirror the
numpy expressions. -/
noncomputable def jackknife_errors (sub : List (List ℝ)) (full : List ℝ)
    (N_sub_vol : ℝ) : List ℝ :=
  let after_subtraction := sub.map (fun row => List.zipWith (· - ·) row full)
  let squared := after_subtraction.map (fun row => row.map (fun x => x ^ 2))
  let error2 := (vsum squared).map (fun t => ((N_sub_vol - 1)/N_sub_vol) * t)
  error2.map (fun x => x ^ ((0.5 : ℝ)))

lemma zipWith_add_getD (a b : List ℝ) (j : ℕ) (hja : j < a.length)
    (hjb : j < b.length) :
    (List.zipWith (· + ·) a b).getD j 0 = a.getD j 0 + b.getD j 0 := by
  rw [List.getD_eq_getElem _ _ (by rw [List.length_zipWith]; omega),
      List.getD_eq_getElem _ _ hja, List.getD_eq_getElem _ _ hjb]
  exact List.getElem_zipWith

lemma vsum_getD (l : List (List ℝ)) (m : ℕ) (hne : l ≠ [])
    (hl : ∀ x ∈ l, x.length = m) (j : ℕ) (hj : j < m) :
    (vsum l).getD j 0 = (l.map (fun row => row.getD j 0)).sum := by
  induction l with
  | nil => cases hne rfl
  | cons x xs ih =>
    cases xs with
    | nil => simp [vsum]
    | cons y t =>
      have hx : x.length = m := hl x (by simp)
      have htail : ∀ z ∈ y :: t, z.length = m :=
        fun z hz => hl z (List.mem_cons_of_mem _ hz)
      have hv : (vsum (y :: t)).length = m := vsum_length _ m (by simp) htail
      have ihy := ih (by simp) htail
      show (List.zipWith (· + ·) x (vsum (y :: t))).getD j 0 = _
      rw [zipWith_add_getD x (vsum (y :: t)) j (by omega) (by omega), ihy]
      simp

lemma squared_row_getD (row full : List ℝ) (j : ℕ)
    (hr : row.length = full.length) (hj : j < full.length) :
    ((List.zipWith (· - ·) row full).map (fun x => x ^ 2)).getD j 0
      = (row.getD j 0 - full.getD j 0) ^ 2 := by
  rw [List.getD_eq_getElem _ _ (by simp [List.length_zipWith]; omega),
      List.getD_eq_getElem _ _ (by omega : j < row.length),
      List.getD_eq_getElem _ _ hj, List.getElem_map, List.getElem_zipWith]

/-- C5: the per-bin jackknife error is
sqrt( ((N_sub_vol-1)/N_sub_vol) * sum over subvolumes of
(xi_sub - xi_full)^2 ), and it is invariant under any permutation of
the leave-one-out rows. -/
theorem C5_jackknife_errors (sub sub2 : List (List ℝ)) (full : List ℝ) (N : ℝ)
    (hrows : ∀ row ∈ sub, row.length = full.length) (hne : sub ≠ [])
    (hperm : sub2.Perm sub) :
    jackknife_errors sub full N
      = (List.range full.length).map (fun j =>
          Real.sqrt (((N - 1)/N)
            * ((sub.map (fun row => (row.getD j 0 - full.getD j 0) ^ 2)).sum)))
  ∧ jackknife_errors sub2 full N = jackknife_errors sub full N := by
  have hcore : ∀ s : List (List ℝ), s ≠ [] →
      (∀ row ∈ s, row.length = full.length) →
      jackknife_errors s full N
        = (List.range full.length).map (fun j =>
            Real.sqrt (((N - 1)/N)
              * ((s.map (fun row => (row.getD j 0 - full.getD j 0) ^ 2)).sum))) := by
    intro s hsne hsrows
    have hsq_len : ∀ x ∈ s.map (fun row =>
        (List.zipWith (· - ·) row full).map (fun y => y ^ 2)),
        x.length = full.length := by
      intro x hx
      rw [List.mem_map] at hx
      obtain ⟨row, hrow, rfl⟩ := hx
      simp [List.length_zipWith, hsrows row hrow]
    have hsq_ne : s.map (fun row =>
        (List.zipWith (· - ·) row full).map (fun y => y ^ 2)) ≠ [] := by
      simpa using hsne
    have hvlen := vsum_length _ full.length hsq_ne hsq_len
    have hunfold : jackknife_errors s full N
        = ((vsum (s.map (fun row =>
              (List.zipWith (· - ·) row full).map (fun y => y ^ 2)))).map
            (fun t => ((N - 1)/N) * t)).map (fun x => x ^ ((0.5 : ℝ))) := by
      simp only [jackknife_errors, List.map_map]
      rfl
    rw [hunfold]
    refine List.ext_getElem ?_ ?_
    · simp [hvlen]
    · intro j hj1 hj2
      have hjm : j < full.length := by
        simpa [hvlen] using hj1
      simp only [List.getElem_map, List.getElem_range]
      rw [← List.getD_eq_getElem _ 0 (by rw [hvlen]; exact hjm), vsum_getD _ full.length
        hsq_ne hsq_len j hjm, List.map_map]
      have hrowsum : (s.map ((fun row => row.getD j 0) ∘ (fun row =>
          (List.zipWith (· - ·) row full).map (fun y => y ^ 2)))).sum
          = (s.map (fun row => (row.getD j 0 - full.getD j 0) ^ 2)).sum := by
        refine congrArg List.sum (List.map_congr_left ?_)
        intro row hrow
        exact squared_row_getD row full j (hsrows row hrow) hjm
      rw [hrowsum, Real.sqrt_eq_rpow]
      norm_num
  constructor
  · exact hcore sub hne hrows
  · have hne2 : sub2 ≠ [] := by
      intro h
      rw [h] at hperm
      have := hperm.length_eq
      simp at this
      exact hne (List.length_eq_zero.mp this.symm)
    have hrows2 : ∀ row ∈ sub2, row.length = full.length :=
      fun row hrow => hrows row (hperm.mem_iff.mp hrow)
    rw [hcore sub hne hrows, hcore sub2 hne2 hrows2]
    refine List.map_congr_left ?_
    intro j _
    rw [(hperm.map (fun row => (row.getD j 0 - full.getD j 0) ^ 2)).sum_eq]

/-- Witness for C5 with two rows and a transposition of them. -/
theorem C5_jackknife_errors_witness :
    ((∀ row ∈ ([[1, 2], [3, 4]] : List (List ℝ)), row.length = [(1:ℝ), 1].length)
  ∧ ([[1, 2], [3, 4]] : List (List ℝ)) ≠ []
  ∧ ([[3, 4], [1, 2]] : List (List ℝ)).Perm [[1, 2], [3, 4]])
  ∧ (jackknife_errors [[1, 2], [3, 4]] [1, 1] 2
      = (List.range [(1:ℝ), 1].length).map (fun j =>
          Real.sqrt ((((2:ℝ) - 1)/2)
            * ((([[1, 2], [3, 4]] : List (List ℝ)).map
                (fun row => (row.getD j 0 - [(1:ℝ), 1].getD j 0) ^ 2)).sum)))
  ∧ jackknife_errors [[3, 4], [1, 2]] [1, 1] 2
      = jackknife_errors [[1, 2], [3, 4]] [1, 1] 2) :=
  ⟨⟨by intro row hrow; simp at hrow; rcases hrow with h | h <;> simp [h],
    by simp, List.Perm.swap _ _ _⟩,
    C5_jackknife_errors [[1, 2], [3, 4]] [[3, 4], [1, 2]] [1, 1] 2
      (by intro row hrow; simp at hrow; rcases hrow with h | h <;> simp [h])
      (by simp) (List.Perm.swap _ _ _)⟩

/-- Model of the down-sampling block of
`two_point_correlation_function_jackknife` (source lines 433 to 451).
The three conditionals mirror the code; the third one, guarded by
`len(randoms) > max_sample_size` and printing that it is down sampling
the randoms, assigns the down-sampled randoms subset to `sample1` and
leaves `randoms` untouched.  Returns the resulting
`(sample1, sample2, randoms)`. -/
def jk_downsample {α : Type} [DecidableEq α] (shuf : ℕ → List ℕ)
    (sample1 sample2 randoms : List α) (mss : ℕ) :
    List α × List α × List α :=
  let sample2a := if mss < sample2.length ∧ ¬(sample1 = sample2)
    then downsample shuf sample2 mss else sample2
  let sample1a := if mss < sample1.length then downsample shuf sample1 mss
    else sample1
  let sample1b := if mss < randoms.length then downsample shuf randoms mss
    else sample1a
  (sample1b, sample2a, randoms)

/-- C8: evaluation of the jackknife down-sampling block at an input
whose randoms catalog exceeds `max_sample_size = 2`.  The claim says the
randoms are reduced to `max_sample_size` points and the data samples are
left unchanged; the code instead leaves `randoms` at full size and
overwrites `sample1` with the down-sampled randoms subset. -/
theorem C8_jk_downsample_bug :
    jk_downsample (fun n => List.range n) [1, 2] [1, 2] [10, 20, 30] 2
      = ([10, 20], [1, 2], [10, 20, 30]) := by
  rfl

/-- The external pair counter as used by the angular function:
`npairs(a, b, theta_bins)` with no period argument. -/
abbrev AngCounter := Sample → Sample → List ℝ → List ℝ

/-- Result forms of `angular_two_point_correlation_function`: a single
array (either `xi_11` for the auto case or `xi_12` for the cross-only
case), the pair `(xi_11, xi_22)`, or the triple
`(xi_11, xi_12, xi_22)`. -/
inductive ATPCFResult : Type
  | single (xi : List ℝ)
  | both (xi1 xi2 : List ℝ)
  | triple (xi1 xi2 xi3 : List ℝ)

/-- Model of the inner `cap_area(C)`: angular area of a spherical cap of
chord length C. -/
noncomputable def cap_area (C : ℝ) : ℝ :=
  2 * Real.pi * (1 - Real.cos (2 * Real.arcsin (C/2)))

/-- Model of the inner `TP_estimator_requirements(estimator)`:
`(do_DD, do_DR, do_RR)` flags telling which pair counts the chosen
estimator needs. -/
def TP_estimator_requirements (estimator : String) :
    Except String (Bool × Bool × Bool) :=
  if estimator = "Natural" then .ok (true, false, true)
  else if estimator = "Davis-Peebles" then .ok (true, true, false)
  else if estimator = "Hewett" then .ok (true, true, true)
  else if estimator = "Hamilton" then .ok (true, true, true)
  else if estimator = "Landy-Szalay" then .ok (true, true, true)
  else .error "unsupported estimator"

/-- Model of the 8-argument `TP_estimator(DD, DR, RR, ND1, ND2, NR1,
NR2, estimator)` of `angular_two_point_correlation_function`, with the
normalization factors computed from explicit sample and random sizes. -/
noncomputable def ang_TP_estimator (DD DR RR : List ℝ) (ND1 ND2 NR1 NR2 : ℝ)
    (estimator : String) : Except String (List ℝ) :=
  if estimator = "Natural" then
    .ok (List.zipWith (fun dd rr => (1/(ND1*ND2/(NR1*NR2))) * dd/rr - 1) DD RR)
  else if estimator = "Davis-Peebles" then
    .ok (List.zipWith (fun dd dr => (1/(ND1*ND2/(ND1*NR2))) * dd/dr - 1) DD DR)
  else if estimator = "Hewett" then
    .ok (zipWith3 (fun dd dr rr => (1/(ND1*ND2/(NR1*NR2))) * dd/rr
      - (1/(ND1*NR2/(NR1*NR2))) * dr/rr) DD DR RR)
  else if estimator = "Hamilton" then
    .ok (zipWith3 (fun dd dr rr => (dd*rr)/(dr*dr) - 1) DD DR RR)
  else if estimator = "Landy-Szalay" then
    .ok (zipWith3 (fun dd dr rr => (1/(ND1*ND2/(NR1*NR2))) * dd/rr
      - (1/(ND1*NR2/(NR1*NR2))) * 2 * dr/rr + 1) DD DR RR)
  else .error "unsupported estimator"

/-- Model of the inner `pair_counts` of
`angular_two_point_correlation_function` (MPI communicator absent):
D1D1, D1D2, D2D2 with `None` for counts that the `do_auto` / `do_cross`
flags skip.  The stray Python `D2D2=False` of the source is modelled as
`none` like the `D2D2=None` of its sibling branch. -/
noncomputable def ang_pair_counts (cnt : AngCounter) (xyz1 xyz2 : Sample)
    (c_bins : List ℝ) (N_threads : ℕ) (do_auto do_cross do_DD : Bool) :
    Option (List ℝ) × Option (List ℝ) × Option (List ℝ) :=
  if N_threads = 1 then
    let D1D1 := if do_auto then some (np_diff (cnt xyz1 xyz1 c_bins)) else none
    if xyz1 = xyz2 then (D1D1, D1D1, D1D1)
    else
      let D1D2 := if do_cross then some (np_diff (cnt xyz1 xyz2 c_bins)) else none
      let D2D2 := if do_auto then some (np_diff (cnt xyz2 xyz2 c_bins)) else none
      (D1D1, D1D2, D2D2)
  else
    let D1D1 := if do_auto then some (np_diff (vsum ((array_split xyz1 N_threads).map
      (fun chunk => cnt chunk xyz1 c_bins)))) else none
    if xyz1 = xyz2 then (D1D1, D1D1, D1D1)
    else
      let D1D2 := if do_cross then some (np_diff (vsum ((array_split xyz1 N_threads).map
        (fun chunk => cnt chunk xyz2 c_bins)))) else none
      let D2D2 := if do_auto then some (np_diff (vsum ((array_split xyz2 N_threads).map
        (fun chunk => cnt chunk xyz2 c_bins)))) else none
      (D1D1, D1D2, D2D2)

/-- Model of the inner `random_counts` of
`angular_two_point_correlation_function` (MPI communicator absent):
D1R, D2R, RR.  Without full-sky coverage the counts are empirical
subject to the `do_RR` / `do_DR` flags; with full-sky coverage (no
randoms supplied) they are analytic from the spherical-cap areas of the
chord bins, and are always produced (hence always `some`). -/
noncomputable def ang_random_counts (cnt : AngCounter) (xyz1 xyz2 : Sample)
    (xyz_randoms : Option Sample) (c_bins : List ℝ) (PBCs : Bool)
    (N_threads : ℕ) (do_RR do_DR : Bool) :
    Option (List ℝ) × Option (List ℝ) × Option (List ℝ) :=
  if PBCs = false then
    let rnd := xyz_randoms.getD []
    if N_threads = 1 then
      let RR := if do_RR then some (np_diff (cnt rnd rnd c_bins)) else none
      let D1R := if do_DR then some (np_diff (cnt xyz1 rnd c_bins)) else none
      let D2R := if xyz1 = xyz2 then none
        else if do_DR then some (np_diff (cnt xyz2 rnd c_bins)) else none
      (D1R, D2R, RR)
    else
      let RR := if do_RR then some (np_diff (vsum ((array_split rnd N_threads).map
        (fun chunk => cnt chunk rnd c_bins)))) else none
      let D1R := if do_DR then some (np_diff (vsum ((array_split xyz1 N_threads).map
        (fun chunk => cnt chunk rnd c_bins)))) else none
      let D2R := if xyz1 = xyz2 then none
        else if do_DR then some (np_diff (vsum ((array_split xyz2 N_threads).map
          (fun chunk => cnt chunk rnd c_bins)))) else none
      (D1R, D2R, RR)
  else
    let dv := np_diff (c_bins.map cap_area)
    let global_area := 4 * Real.pi
    let N1 : ℝ := xyz1.length
    let rho1 := N1 / global_area
    let D1R := dv.map (fun v => N1 * (v * rho1))
    if xyz1 = xyz2 then (some D1R, none, some D1R)
    else
      let N2 : ℝ := xyz2.length
      let rho2 := N2 / global_area
      let D2R := dv.map (fun v => N2 * (v * rho2))
      let NR := N1 * N2
      let rhor := NR / global_area
      let RR := dv.map (fun v => v * rhor)
      (some D1R, some D2R, some RR)

/-- Model of `angular_two_point_correlation_function(sample1,
theta_bins, sample2, randoms, max_sample_size, estimator, do_auto,
do_cross, N_threads)` with the MPI communicator absent.  The
spherical-to-Cartesian transform `s2c` and the angular-bin-to-chord
transform `chord` live in `halotools.utils.spherical_geometry`, outside
this repository core, and are explicit function parameters, as are the
pair counter and the down-sampling shuffle.  `Option.none` in the
result models the implicit Python `None` returned when the final branch
chain falls through. -/
noncomputable def angular_two_point_correlation_function (cnt : AngCounter)
    (s2c : Sample → Sample) (chord : List ℝ → List ℝ) (shuf : ℕ → List ℕ)
    (sample1 : Sample) (theta_bins : List ℝ) (sample2opt : Option Sample)
    (randoms : Option Sample) (mss : ℕ) (estimator : String)
    (do_auto do_cross : Bool) (N_threads : ℕ) :
    Except String (Option ATPCFResult) :=
  let sample2 := sample2opt.getD sample1
  let PBCs := randoms.isNone
  let sample2 := if mss < sample2.length ∧ ¬(sample1 = sample2)
    then downsample shuf sample2 mss else sample2
  let sample1 := if mss < sample1.length then downsample shuf sample1 mss
    else sample1
  if dim sample1 ≠ 2 then
    .error "angular correlation function requires 2-dimensional data"
  else if dim sample1 ≠ dim sample2 then
    .error "Sample 1 and sample 2 must have same dimension."
  else if estimator ∉ list_estimators then
    .error "Must specify a supported estimator."
  else
    let N1 : ℝ := match randoms with | some _ => sample1.length | none => 1
    let N2 : ℝ := match randoms with | some _ => sample2.length | none => 1
    let NR : ℝ := match randoms with | some rnd => rnd.length | none => 1
    do
      let req ← TP_estimator_requirements estimator
      let xyz1 := s2c sample1
      let xyz2 := s2c sample2
      let xyzr := randoms.map s2c
      let c_bins := chord theta_bins
      let dd := ang_pair_counts cnt xyz1 xyz2 c_bins N_threads do_auto do_cross req.1
      let rc := ang_random_counts cnt xyz1 xyz2 xyzr c_bins PBCs N_threads
        req.2.2 req.2.1
      if sample2 = sample1 then do
        let xi_11 ← ang_TP_estimator (dd.1.getD []) (rc.1.getD []) (rc.2.2.getD [])
          N1 N1 NR NR estimator
        return some (.single xi_11)
      else if do_auto = true ∧ do_cross = true then do
        let xi_11 ← ang_TP_estimator (dd.1.getD []) (rc.1.getD []) (rc.2.2.getD [])
          N1 N1 NR NR estimator
        let xi_12 ← ang_TP_estimator (dd.2.1.getD []) (rc.1.getD []) (rc.2.2.getD [])
          N1 N2 NR NR estimator
        let xi_22 ← ang_TP_estimator (dd.2.2.getD []) (rc.2.1.getD []) (rc.2.2.getD [])
          N2 N2 NR NR estimator
        return some (.triple xi_11 xi_12 xi_22)
      else if do_cross = true then do
        let xi_12 ← ang_TP_estimator (dd.2.1.getD []) (rc.1.getD []) (rc.2.2.getD [])
          N1 N2 NR NR estimator
        return some (.single xi_12)
      else if do_auto = true then do
        let xi_11 ← ang_TP_estimator (dd.1.getD []) (rc.1.getD []) (rc.2.2.getD [])
          N1 N1 NR NR estimator
        let xi_22 ← ang_TP_estimator (dd.2.2.getD []) (rc.2.1.getD []) (rc.2.2.getD [])
          N2 N2 NR NR estimator
        return some (.both xi_11 xi_22)
      else
        return none

/-- C10: when sample2 is supplied and differs from sample1 and both
`do_auto` and `do_cross` are false, the final branch chain of
`angular_two_point_correlation_function` covers no case: the function
returns the Python `None` (here `Option.none`), not an array and not an
error. -/
theorem C10_no_auto_no_cross_none (cnt : AngCounter) (s2c : Sample → Sample)
    (chord : List ℝ → List ℝ) (shuf : ℕ → List ℕ) (sample1 sample2 : Sample)
    (theta_bins : List ℝ) (randoms : Option Sample) (mss : ℕ) (est : String)
    (T : ℕ)
    (h1 : sample1.length ≤ mss) (h2 : sample2.length ≤ mss)
    (hne : sample2 ≠ sample1)
    (hd1 : dim sample1 = 2) (hd2 : dim sample2 = 2)
    (hest : est ∈ list_estimators) :
    angular_two_point_correlation_function cnt s2c chord shuf sample1 theta_bins
      (some sample2) randoms mss est false false T = .ok none := by
  have hns1 : ¬(mss < sample1.length) := Nat.not_lt.mpr h1
  have hns2 : ¬(mss < sample2.length) := Nat.not_lt.mpr h2
  obtain ⟨req, hreq⟩ : ∃ r, TP_estimator_requirements est = .ok r := by
    simp only [list_estimators, List.mem_cons, List.not_mem_nil, or_false] at hest
    rcases hest with h | h | h | h | h <;> subst h <;> exact ⟨_, rfl⟩
  simp [angular_two_point_correlation_function, hns1, hns2, hne, hd1, hd2, hest,
    hreq, Except.bind]

/-- Witness for C10 at concrete two-point samples. -/
theorem C10_no_auto_no_cross_none_witness :
    ((([[(0:ℝ), 0]] : Sample).length ≤ 5 ∧ ([[(1:ℝ), 1]] : Sample).length ≤ 5
      ∧ ([[(1:ℝ), 1]] : Sample) ≠ [[0, 0]])
  ∧ (dim [[(0:ℝ), 0]] = 2 ∧ dim [[(1:ℝ), 1]] = 2 ∧ "Natural" ∈ list_estimators))
  ∧ angular_two_point_correlation_function ((fun _ _ _ => []) : AngCounter)
      id id (fun n => List.range n) [[0, 0]] [1, 2] (some [[1, 1]]) none 5
      "Natural" false false 1 = .ok none :=
  ⟨⟨⟨by norm_num, by norm_num, by norm_num⟩,
    ⟨rfl, rfl, by simp [list_estimators]⟩⟩,
    C10_no_auto_no_cross_none ((fun _ _ _ => []) : AngCounter) id id
      (fun n => List.range n) [[0, 0]] [[1, 1]] [1, 2] none 5 "Natural" 1
      (by norm_num) (by norm_num) (by norm_num) rfl rfl (by simp [list_estimators])⟩
